import Mathlib

/-!
Verification of the coverage-filter and spine-merge subsystem of the CSMAR
panel pipeline (`clean_data.py` and `merge_filtered.py`), via a shallow
embedding of its pandas operations on an explicit in-memory table model.

Tables are lists of rows; a row is an association list from column names to
cell values.  A cell value is either missing (pandas NaN), a string, or an
integer.  Pandas series operations become list operations; boolean masks
become lists of booleans applied positionally.
-/

set_option autoImplicit false

namespace Csmar

/-- A cell value: missing (NaN), a string, or an integer. -/
inductive Val where
  | null : Val
  | str : String → Val
  | int : Int → Val
deriving DecidableEq, Repr

/-- Python `str()` as applied by pandas `astype(str)`: a float NaN renders
as the string "nan". -/
def pyStr (v : Val) : String :=
  match v with
  | Val.null => "nan"
  | Val.str s => s
  | Val.int n => toString n

/-- A row: association list from column name to value (first binding wins). -/
abbrev Row := List (String × Val)

/-- Reading a cell; a missing column reads as NaN. -/
def getVal (r : Row) (c : String) : Val :=
  match r with
  | [] => Val.null
  | (k, v) :: t => if k = c then v else getVal t c

/-- Whether a column is present in a row. -/
def keyPresent (r : Row) (c : String) : Bool :=
  match r with
  | [] => false
  | (k, _) :: t => if k = c then true else keyPresent t c

/-- Column assignment on one row: replace the first binding of `c`, or
append a new binding when `c` is absent. -/
def setCol (r : Row) (c : String) (v : Val) : Row :=
  match r with
  | [] => [(c, v)]
  | (k, w) :: t => if k = c then (c, v) :: t else (k, w) :: setCol t c v

/-- Dropping a column from one row (pandas `drop(columns=[c])`). -/
def dropCol (r : Row) (c : String) : Row :=
  match r with
  | [] => []
  | (k, v) :: t => if k = c then dropCol t c else (k, v) :: dropCol t c

/-- An in-memory table: column names plus rows. -/
structure Table where
  cols : List String
  rows : List Row
deriving DecidableEq, Repr

/-- Whitespace characters removed by Python `str.strip()`. -/
def isPyWS (c : Char) : Bool :=
  c == ' ' || c == '\t' || c == '\n' || c == '\r'

/-- Python `str.strip()`: remove leading and trailing whitespace. -/
def pyStrip (s : String) : String :=
  String.mk (((s.data.dropWhile isPyWS).reverse.dropWhile isPyWS).reverse)

/-- `re.sub(r"\.0$", "", s)` on the character list: the anchored pattern
matches at most once, so exactly one trailing ".0" is removed if present. -/
def stripTrailingDotZero (l : List Char) : List Char :=
  match l.reverse with
  | '0' :: '.' :: rest => rest.reverse
  | _ => l

/-- String-level company-id normalization: strip whitespace, then strip one
trailing ".0" (from `clean_data.py` and `merge_filtered.py`,
`normalize_company_id`). -/
def normStr (s : String) : String :=
  String.mk (stripTrailingDotZero (pyStrip s).data)

/-- `normalize_company_id` applied to one cell: `astype(str)`, `str.strip()`,
then `str.replace(r"\.0$", "", regex=True)`.  The result is always a
string value. -/
def normalize_company_id (v : Val) : Val :=
  Val.str (normStr (pyStr v))

/-- A parsed calendar date. -/
structure PDate where
  year : Int
  month : Nat
  day : Nat
deriving DecidableEq, Repr

/-- Parse a nonempty all-digit character list as a number. -/
def digitsToNat (l : List Char) : Option Nat :=
  if !l.isEmpty && l.all Char.isDigit then
    some (l.foldl (fun a c => a * 10 + (c.toNat - 48)) 0)
  else none

/-- Split a character list on a separator character. -/
def splitOnChar (c : Char) (l : List Char) : List (List Char) :=
  l.foldr
    (fun ch acc =>
      if ch == c then [] :: acc
      else
        match acc with
        | [] => [[ch]]
        | h :: t => (ch :: h) :: t)
    [[]]

/-- Strict ISO parsing, modelling `pd.to_datetime(_, format="%Y-%m-%d")`:
year-month-day separated by dashes, with a plausible month and day. -/
def parseDateISO (s : String) : Option PDate :=
  match splitOnChar '-' s.data with
  | [ys, ms, ds] =>
    match digitsToNat ys, digitsToNat ms, digitsToNat ds with
    | some y, some m, some d =>
      if 1 ≤ m && m ≤ 12 && 1 ≤ d && d ≤ 31 then
        some ⟨(y : Int), m, d⟩
      else none
    | _, _, _ => none
  | _ => none

/-- Flexible parsing, modelling bare `pd.to_datetime(_, errors="coerce")`:
also accepts a trailing time-of-day part and slash separators. -/
def flexParseDate (s : String) : Option PDate :=
  parseDateISO
    (String.mk
      ((s.data.takeWhile (fun c => c != ' ')).map
        (fun c => if c == '/' then '-' else c)))

/-- Date parsing of one cell with `errors="coerce"`: non-string cells and
unparsable strings coerce to NaT (`none`), never to an error. -/
def parseDateVal (v : Val) : Option PDate :=
  match v with
  | Val.str s => flexParseDate s
  | _ => none

/-- Positional boolean-mask selection, modelling `df.loc[mask]`. -/
def maskFilter {α : Type} : List α → List Bool → List α
  | [], _ => []
  | _ :: _, [] => []
  | a :: l, b :: bs => if b then a :: maskFilter l bs else maskFilter l bs

/-- `drop_duplicates` helper: deduplicate keeping first occurrences, with an
accumulator of values already seen. -/
def pdDedupAux {α : Type} [DecidableEq α] (seen : List α) : List α → List α
  | [] => []
  | a :: l => if a ∈ seen then pdDedupAux seen l else a :: pdDedupAux (a :: seen) l

/-- Pandas `drop_duplicates`: keep the first occurrence of each element,
preserving order. -/
def pdDedup {α : Type} [DecidableEq α] (l : List α) : List α :=
  pdDedupAux [] l

/-- Column assignment on a table from a positional list of values,
modelling `df[c] = series`: the column list gains `c` when absent. -/
def assignColVals (t : Table) (c : String) (vals : List Val) : Table :=
  ⟨if t.cols.contains c then t.cols else t.cols ++ [c],
   (t.rows.zip vals).map (fun p => setCol p.1 c p.2)⟩

/-- Remove a column name from a column list (pandas `drop(columns=[c])`). -/
def dropColName (cs : List String) (c : String) : List String :=
  cs.filter (fun x => x != c)

/-- `filter_year_end` (clean_data.py): with a declared date column, keep
exactly the rows whose (coerced) parsed date has month 12 and day 31;
unparsable dates coerce to NaT, whose mask entry is false. -/
def filter_year_end (df : Table) (date_col : Option String) : Table :=
  match date_col with
  | none => df
  | some col =>
    let dates := df.rows.map (fun r => parseDateVal (getVal r col))
    let mask := dates.map
      (fun d =>
        match d with
        | some d => d.month == 12 && d.day == 31
        | none => false)
    ⟨df.cols, maskFilter df.rows mask⟩

/-- Year of one cell under strict ISO parsing ("%Y-%m-%d"); NaT otherwise. -/
def strict_year (v : Val) : Val :=
  match v with
  | Val.str s =>
    match parseDateISO s with
    | some d => Val.int d.year
    | none => Val.null
  | _ => Val.null

/-- Year of one cell under flexible parsing; NaT otherwise. -/
def flexible_year (v : Val) : Val :=
  match v with
  | Val.str s =>
    match flexParseDate s with
    | some d => Val.int d.year
    | none => Val.null
  | _ => Val.null

/-- `normalize_year` (clean_data.py): parse the whole column strictly; only
when strict parsing yields no value at all, re-parse the whole column
flexibly.  Returns the per-row year (or NaT). -/
def normalize_year (vals : List Val) : List Val :=
  let strict := vals.map strict_year
  if strict.all (fun v => v == Val.null) then vals.map flexible_year else strict

/-- Membership of one (string) cell in a kept-company set, modelling
`series.isin(set_of_strings)`. -/
def valInKeep (v : Val) (keep : Finset String) : Bool :=
  match v with
  | Val.str s => decide (s ∈ keep)
  | _ => false

/-- Membership of one (year) cell in the target-year set, modelling
`series.isin(target_years)`; NaT is never a member. -/
def yearInTy (v : Val) (ty : Finset Int) : Bool :=
  match v with
  | Val.int n => decide (n ∈ ty)
  | _ => false

/-- `companies_with_full_years` (clean_data.py): normalize the company
column; with no year column, the distinct values of the normalized column
surviving `dropna` form the coverage set; otherwise pair each row's
normalized company with its parsed year, drop rows where either is null,
group by company and keep companies with at least `minY` target years. -/
def companies_with_full_years (df : Table) (cc : String) (yc : Option String)
    (ty : Finset Int) (minY : Nat) : Finset String :=
  let temp := assignColVals df cc
    (df.rows.map (fun r => normalize_company_id (getVal r cc)))
  match yc with
  | none =>
    (((temp.rows.map (fun r => getVal r cc)).filter
        (fun v => v != Val.null)).map pyStr).toFinset
  | some y =>
    let yv := normalize_year (temp.rows.map (fun r => getVal r y))
    let pairs := (temp.rows.zip yv).filterMap
      (fun p =>
        if getVal p.1 cc = Val.null then none
        else
          match p.2 with
          | Val.int n => some (pyStr (getVal p.1 cc), n)
          | _ => none)
    ((pairs.map Prod.fst).toFinset).filter
      (fun c =>
        minY ≤ ((((pairs.filter (fun q => q.1 == c)).map Prod.snd).toFinset) ∩ ty).card)

/-- `filter_for_companies_and_years` (clean_data.py): normalize the company
column in place on a copy, mask rows by retained-company membership and
(when a year column is declared) target-year membership of the parsed
year placed in a transient "__year" column, drop the transient column,
and select by the mask. -/
def filter_for_companies_and_years (df : Table) (cc : String)
    (yc : Option String) (keep : Finset String) (ty : Finset Int) : Table :=
  let out := assignColVals df cc
    (df.rows.map (fun r => normalize_company_id (getVal r cc)))
  let maskC := out.rows.map (fun r => valInKeep (getVal r cc) keep)
  match yc with
  | none => ⟨out.cols, maskFilter out.rows maskC⟩
  | some y =>
    let yv := normalize_year (out.rows.map (fun r => getVal r y))
    let out2 := assignColVals out "__year" yv
    let mask := List.zipWith (fun a b => a && b) maskC
      (out2.rows.map (fun r => yearInTy (getVal r "__year") ty))
    let out3 : Table := ⟨dropColName out2.cols "__year",
      out2.rows.map (fun r => dropCol r "__year")⟩
    ⟨out3.cols, maskFilter out3.rows mask⟩

/-- One loaded dataset as held by `process` (clean_data.py): its config key,
the loaded and row-filtered table, and the resolved company and year
columns. -/
structure LoadedDS where
  key : String
  table : Table
  companyCol : String
  yearCol : Option String
deriving DecidableEq, Repr

/-- The per-dataset diagnostic counts printed by `process` before the
intersection check: row count, distinct non-null raw company values
(`nunique`), and the size of the coverage set. -/
structure Diag where
  rowCount : Nat
  uniqueCompanies : Nat
  meetingThreshold : Nat
deriving DecidableEq, Repr

/-- Diagnostics of one loaded dataset, as computed in `process`. -/
def diagOf (d : LoadedDS) (ty : Finset Int) (minY : Nat) : Diag :=
  ⟨d.table.rows.length,
   ((d.table.rows.map (fun r => getVal r d.companyCol)).filter
       (fun v => v != Val.null)).toFinset.card,
   (companies_with_full_years d.table d.companyCol d.yearCol ty minY).card⟩

/-- `set.intersection(*sets)` over the nonempty list of coverage sets. -/
def intersectAll (ss : List (Finset String)) : Finset String :=
  match ss with
  | [] => ∅
  | h :: t => t.foldl (fun a b => a ∩ b) h

/-- The message of the RuntimeError raised by `process` on empty retention. -/
def emptyRetentionMsg : String :=
  "No companies meet the coverage requirement across all datasets and target years. Check counts above; likely some files lack the full year range or have mismatched company codes."

/-- The decision core of `process` (clean_data.py) after loading: always
produce the per-dataset diagnostics (printed before any failure), then
either fail with the EmptyRetention error when the coverage intersection
is empty, or produce the filtered dataset outputs to be saved. -/
def processModel (datasets : List LoadedDS) (ty : Finset Int) (minY : Nat) :
    List (String × Diag) × Except String (List (String × Table)) :=
  let diags := datasets.map (fun d => (d.key, diagOf d ty minY))
  let common := intersectAll
    (datasets.map (fun d => companies_with_full_years d.table d.companyCol d.yearCol ty minY))
  if common = ∅ then (diags, Except.error emptyRetentionMsg)
  else
    (diags,
     Except.ok (datasets.map
       (fun d => (d.key, filter_for_companies_and_years d.table d.companyCol d.yearCol common ty))))

/-- Projection of one row to the key columns, as built by
`df[list(key_cols)]` (merge_filtered.py). -/
def projRow (keyCols : List String) (r : Row) : Row :=
  keyCols.map (fun c => (c, getVal r c))

/-- `build_spine` (merge_filtered.py): per-source deduplicated key
projection, concatenated across sources, deduplicated again. -/
def build_spine (dfs : List Table) (keyCols : List String) : Table :=
  ⟨keyCols,
   pdDedup ((dfs.map (fun df => pdDedup (df.rows.map (projRow keyCols)))).flatten)⟩

/-- The fixed fallback list scanned when a declared date column is absent
(merge_filtered.py). -/
def fallback_candidates : List String :=
  ["Accper", "Accper.1", "EndDate", "EndDate.1"]

/-- Date-column resolution in the merge loop: the declared name when
present, else the first fallback candidate present, else the (absent)
declared name. -/
def resolve_date_col (declared : String) (cols : List String) : String :=
  if cols.contains declared then declared
  else
    match fallback_candidates.find? (fun f => cols.contains f) with
    | some f => f
    | none => declared

/-- `df.rename(columns={old: new})` on a table. -/
def renameCol (t : Table) (old new : String) : Table :=
  ⟨t.cols.map (fun c => if c = old then new else c),
   t.rows.map (fun r => r.map (fun p => if p.1 = old then (new, p.2) else p))⟩

/-- Prefix every non-key column with the source key and an underscore
(merge_filtered.py `rename_cols`). -/
def prefixNonKey (t : Table) (key : String) (keys : List String) : Table :=
  ⟨t.cols.map (fun c => if keys.contains c then c else key ++ "_" ++ c),
   t.rows.map (fun r =>
     r.map (fun p => if keys.contains p.1 then p else (key ++ "_" ++ p.1, p.2)))⟩

/-- Key tuple of a row for a given join-key list. -/
def keyTupleOf (keys : List String) (r : Row) : List Val :=
  keys.map (fun k => getVal r k)

/-- The rows of the right table matching one left row on the join keys. -/
def matchRows (rows : List Row) (keys : List String) (lr : Row) : List Row :=
  rows.filter (fun rr => keys.all (fun k => getVal rr k == getVal lr k))

/-- Pandas `left.merge(right, how="left", on=keys)`: every left row is kept
in order; a left row with no match gains null-filled right columns, and a
left row with several matches fans out into one output row per match. -/
def leftMerge (left right : Table) (keys : List String) : Table :=
  let rightNonKey := right.cols.filter (fun c => !(keys.contains c))
  ⟨left.cols ++ rightNonKey,
   left.rows.flatMap
     (fun lr =>
       match matchRows right.rows keys lr with
       | [] => [lr ++ rightNonKey.map (fun c => (c, Val.null))]
       | ms => ms.map (fun rr => lr ++ rr.filter (fun p => !(keys.contains p.1))))⟩

/-- Preparation of one source before its join (merge_filtered.py lines
104-119): resolve the date column through the fallback list, rename it to
the canonical "Date" key, prefix all non-key columns with the source key;
also yields the join-key list ((Symbol, Date), or Symbol alone for a
source with no declared date column). -/
def preparedSource (key : String) (df : Table) (declared : Option String) :
    Table × List String :=
  match declared with
  | none => (prefixNonKey df key ["Symbol"], ["Symbol"])
  | some d =>
    let actual := resolve_date_col d df.cols
    (prefixNonKey (renameCol df actual "Date") key ["Symbol", "Date"],
     ["Symbol", "Date"])

/-- One iteration of the join loop: prepare the source and left-join it onto
the running merged table; a join key absent from either side is the
KeyError pandas would raise. -/
def joinSourceStep (merged : Table) (key : String) (df : Table)
    (declared : Option String) : Except String Table :=
  let p := preparedSource key df declared
  if p.2.all (fun k => merged.cols.contains k) &&
      p.2.all (fun k => p.1.cols.contains k) then
    Except.ok (leftMerge merged p.1 p.2)
  else Except.error "KeyError: merge columns missing"

/-- A source as consumed by the join loop: its key, table, and declared
date column. -/
abbrev MergeSource := String × Table × Option String

/-- Fold step threading join failures. -/
def mergeStepE (acc : Except String Table) (src : MergeSource) :
    Except String Table :=
  match acc with
  | Except.error e => Except.error e
  | Except.ok m => joinSourceStep m src.1 src.2.1 src.2.2

/-- The join loop of `merge_filtered`: start from the spine and left-join
every source in turn. -/
def mergeAll (spine : Table) (sources : List MergeSource) :
    Except String Table :=
  sources.foldl mergeStepE (Except.ok spine)

/-- The join-key tuples a prepared source exposes to the join. -/
def sourceKeyTuples (src : MergeSource) : List (List Val) :=
  ((preparedSource src.1 src.2.1 src.2.2).1.rows).map
    (keyTupleOf (preparedSource src.1 src.2.1 src.2.2).2)

/-- Row count of a join-loop outcome, when it succeeded. -/
def rowCountE (e : Except String Table) : Option Nat :=
  match e with
  | Except.ok t => some t.rows.length
  | Except.error _ => none

/-- Whether a join-loop outcome succeeded. -/
def isOkE (e : Except String Table) : Bool :=
  match e with
  | Except.ok _ => true
  | Except.error _ => false

/-- A heap of in-memory tables, for making the copy-versus-mutate
discipline of the pandas code explicit: references are indices. -/
abbrev Heap := List Table

/-- Dereference a table. -/
def hget (h : Heap) (i : Nat) : Table :=
  h.getD i ⟨[], []⟩

/-- Allocate a fresh table (`df.copy()` allocates): returns the new heap and
the fresh reference. -/
def halloc (h : Heap) (t : Table) : Heap × Nat :=
  (h ++ [t], h.length)

/-- In-place update of the table behind a reference (`df[col] = ...`). -/
def hassign (h : Heap) (i : Nat) (t : Table) : Heap :=
  h.set i t

/-- Heap-level `companies_with_full_years`: `temp = df.copy()` allocates a
fresh table, both column assignments mutate only that copy, and the
`dropna`/groupby stages read without writing.  Returns the final heap and
the coverage set. -/
def companies_with_full_years_heap (h : Heap) (i : Nat) (cc : String)
    (yc : Option String) (ty : Finset Int) (minY : Nat) :
    Heap × Finset String :=
  let p := halloc h (hget h i)
  let h1 := p.1
  let t := p.2
  let h2 := hassign h1 t
    (assignColVals (hget h1 t) cc
      ((hget h1 t).rows.map (fun r => normalize_company_id (getVal r cc))))
  match yc with
  | none =>
    (h2,
     ((((hget h2 t).rows.map (fun r => getVal r cc)).filter
         (fun v => v != Val.null)).map pyStr).toFinset)
  | some y =>
    let yv := normalize_year ((hget h2 t).rows.map (fun r => getVal r y))
    let h3 := hassign h2 t (assignColVals (hget h2 t) "__year" yv)
    let temp2 := (hget h3 t).rows.filter
      (fun r => getVal r cc != Val.null && getVal r "__year" != Val.null)
    let pairs := temp2.filterMap
      (fun r =>
        match getVal r "__year" with
        | Val.int n => some (pyStr (getVal r cc), n)
        | _ => none)
    (h3,
     ((pairs.map Prod.fst).toFinset).filter
       (fun c =>
         minY ≤ ((((pairs.filter (fun q => q.1 == c)).map Prod.snd).toFinset) ∩ ty).card))

/-- Heap-level `filter_for_companies_and_years`: `out = df.copy()`
allocates, the column assignments mutate only the copy, and the
`drop(columns)`/`loc[mask]`/`reset_index` chain builds a fresh result
table without writing through any reference. -/
def filter_for_companies_and_years_heap (h : Heap) (i : Nat) (cc : String)
    (yc : Option String) (keep : Finset String) (ty : Finset Int) :
    Heap × Table :=
  let p := halloc h (hget h i)
  let h1 := p.1
  let t := p.2
  let h2 := hassign h1 t
    (assignColVals (hget h1 t) cc
      ((hget h1 t).rows.map (fun r => normalize_company_id (getVal r cc))))
  let maskC := (hget h2 t).rows.map (fun r => valInKeep (getVal r cc) keep)
  match yc with
  | none => (h2, ⟨(hget h2 t).cols, maskFilter (hget h2 t).rows maskC⟩)
  | some y =>
    let yv := normalize_year ((hget h2 t).rows.map (fun r => getVal r y))
    let h3 := hassign h2 t (assignColVals (hget h2 t) "__year" yv)
    let mask := List.zipWith (fun a b => a && b) maskC
      ((hget h3 t).rows.map (fun r => yearInTy (getVal r "__year") ty))
    let out3 : Table := ⟨dropColName (hget h3 t).cols "__year",
      (hget h3 t).rows.map (fun r => dropCol r "__year")⟩
    (h3, ⟨out3.cols, maskFilter out3.rows mask⟩)

/-- Follows the spec's words for the no-year-column coverage rule: the set
of distinct normalized company identifiers among the NON-NULL raw values
of the company column.  Kept separate from the source-derived
`companies_with_full_years` so the two can be compared. -/
def specNonNullCoverage (df : Table) (cc : String) : Finset String :=
  (((df.rows.map (fun r => getVal r cc)).filter
      (fun v => v != Val.null)).map (fun v => normStr (pyStr v))).toFinset

/-! ### Association-list row lemmas -/

theorem getVal_setCol_self (r : Row) (c : String) (v : Val) :
    getVal (setCol r c v) c = v := by
  induction r with
  | nil => simp [setCol, getVal]
  | cons p t ih =>
    obtain ⟨k, w⟩ := p
    by_cases h : k = c
    · simp [setCol, h, getVal]
    · simp [setCol, h, getVal, ih]

theorem getVal_setCol_ne (r : Row) (c c' : String) (v : Val) (h : c ≠ c') :
    getVal (setCol r c' v) c = getVal r c := by
  induction r with
  | nil => simp [setCol, getVal, Ne.symm h]
  | cons p t ih =>
    obtain ⟨k, w⟩ := p
    by_cases hk : k = c'
    · subst hk
      simp [setCol, getVal, Ne.symm h, h]
    · by_cases hc : k = c
      · simp [setCol, hk, getVal, hc, h, Ne.symm h]
      · simp [setCol, hk, getVal, hc, ih]

theorem keyPresent_setCol (r : Row) (c : String) (v : Val) :
    keyPresent (setCol r c v) c = true := by
  induction r with
  | nil => simp [setCol, keyPresent]
  | cons p t ih =>
    obtain ⟨k, w⟩ := p
    by_cases h : k = c
    · simp [setCol, h, keyPresent]
    · simp [setCol, h, keyPresent, ih]

theorem keyPresent_setCol_ne (r : Row) (c c' : String) (v : Val) (h : c ≠ c') :
    keyPresent (setCol r c' v) c = keyPresent r c := by
  induction r with
  | nil => simp [setCol, keyPresent, Ne.symm h]
  | cons p t ih =>
    obtain ⟨k, w⟩ := p
    by_cases hk : k = c'
    · subst hk
      simp [setCol, keyPresent, Ne.symm h, h]
    · by_cases hc : k = c
      · simp [setCol, hk, keyPresent, hc, h, Ne.symm h]
      · simp [setCol, hk, keyPresent, hc, ih]

theorem setCol_getVal_of_keyPresent (r : Row) (c : String)
    (h : keyPresent r c = true) : setCol r c (getVal r c) = r := by
  induction r with
  | nil => simp [keyPresent] at h
  | cons p t ih =>
    obtain ⟨k, w⟩ := p
    by_cases hk : k = c
    · subst hk
      simp [setCol, getVal]
    · simp [keyPresent, hk] at h
      simp [setCol, hk, getVal, ih h]

theorem getVal_dropCol_ne (r : Row) (c c' : String) (h : c ≠ c') :
    getVal (dropCol r c') c = getVal r c := by
  induction r with
  | nil => simp [dropCol]
  | cons p t ih =>
    obtain ⟨k, w⟩ := p
    by_cases hk : k = c'
    · subst hk
      simp [dropCol, getVal, Ne.symm h, ih]
    · by_cases hc : k = c
      · simp [dropCol, hk, getVal, hc, h, Ne.symm h]
      · simp [dropCol, hk, getVal, hc, ih]

theorem keyPresent_dropCol_ne (r : Row) (c c' : String) (h : c ≠ c') :
    keyPresent (dropCol r c') c = keyPresent r c := by
  induction r with
  | nil => simp [dropCol]
  | cons p t ih =>
    obtain ⟨k, w⟩ := p
    by_cases hk : k = c'
    · subst hk
      simp [dropCol, keyPresent, Ne.symm h, ih]
    · by_cases hc : k = c
      · simp [dropCol, hk, keyPresent, hc, h, Ne.symm h]
      · simp [dropCol, hk, keyPresent, hc, ih]

theorem keyPresent_dropCol_self (r : Row) (c : String) :
    keyPresent (dropCol r c) c = false := by
  induction r with
  | nil => simp [dropCol, keyPresent]
  | cons p t ih =>
    obtain ⟨k, w⟩ := p
    by_cases hk : k = c
    · simp [dropCol, hk, ih]
    · simp [dropCol, hk, keyPresent, ih]

theorem dropCol_eq_self_of_not_key (r : Row) (c : String)
    (h : keyPresent r c = false) : dropCol r c = r := by
  induction r with
  | nil => simp [dropCol]
  | cons p t ih =>
    obtain ⟨k, w⟩ := p
    by_cases hk : k = c
    · simp [keyPresent, hk] at h
    · simp [keyPresent, hk] at h
      simp [dropCol, hk, ih h]

theorem dropCol_setCol (r : Row) (c : String) (v : Val) :
    dropCol (setCol r c v) c = dropCol r c := by
  induction r with
  | nil => simp [setCol, dropCol]
  | cons p t ih =>
    obtain ⟨k, w⟩ := p
    by_cases hk : k = c
    · simp [setCol, hk, dropCol]
    · simp [setCol, hk, dropCol, ih]

theorem dropCol_dropCol (r : Row) (c : String) :
    dropCol (dropCol r c) c = dropCol r c :=
  dropCol_eq_self_of_not_key _ _ (keyPresent_dropCol_self r c)

/-! ### Mask and zip lemmas -/

theorem maskFilter_map_self {α : Type} (l : List α) (p : α → Bool) :
    maskFilter l (l.map p) = l.filter p := by
  induction l with
  | nil => simp [maskFilter]
  | cons a t ih =>
    by_cases h : p a <;> simp [maskFilter, List.filter, h, ih]

theorem maskFilter_map_map {α β : Type} (l : List α) (f : α → β) (p : α → Bool) :
    maskFilter (l.map f) (l.map p) = (l.filter p).map f := by
  induction l with
  | nil => simp [maskFilter]
  | cons a t ih =>
    by_cases h : p a <;> simp [maskFilter, List.filter, h, ih]

theorem zip_self_map {α β γ : Type} (l : List α) (f : α → β)
    (h : α → β → γ) :
    (l.zip (l.map f)).map (fun p => h p.1 p.2) = l.map (fun a => h a (f a)) := by
  induction l with
  | nil => simp
  | cons a t ih => simp [ih]

theorem zipWith_and_map {α : Type} (l : List α) (p q : α → Bool) :
    List.zipWith (fun a b => a && b) (l.map p) (l.map q) =
      l.map (fun a => p a && q a) := by
  induction l with
  | nil => simp
  | cons a t ih => simp [ih]

theorem count_filter_eq {α : Type} [BEq α] [LawfulBEq α] (l : List α) (p : α → Bool)
    (a : α) : (l.filter p).count a = if p a then l.count a else 0 := by
  induction l with
  | nil => simp [List.filter]
  | cons b t ih =>
    by_cases hb : p b
    · by_cases hab : a = b
      · subst hab
        simp [List.filter, hb, List.count_cons, ih]
      · simp [List.filter, hb, List.count_cons, hab, ih]
    · by_cases hab : a = b
      · subst hab
        simp [List.filter, hb, List.count_cons, ih]
      · simp [List.filter, hb, List.count_cons, hab, ih]

/-! ### Deduplication lemmas -/

theorem mem_pdDedupAux {α : Type} [DecidableEq α] (seen l : List α) (x : α) :
    x ∈ pdDedupAux seen l ↔ x ∈ l ∧ x ∉ seen := by
  induction l generalizing seen with
  | nil => simp [pdDedupAux]
  | cons a t ih =>
    by_cases ha : a ∈ seen
    · simp only [pdDedupAux, if_pos ha, ih, List.mem_cons]
      constructor
      · rintro ⟨hx, hns⟩
        exact ⟨Or.inr hx, hns⟩
      · rintro ⟨hx | hx, hns⟩
        · exact absurd ha (hx ▸ hns)
        · exact ⟨hx, hns⟩
    · simp only [pdDedupAux, if_neg ha, List.mem_cons, ih, List.mem_cons]
      constructor
      · rintro (hx | ⟨hx, hns⟩)
        · exact ⟨Or.inl hx, hx ▸ ha⟩
        · exact ⟨Or.inr hx, fun hs => hns (Or.inr hs)⟩
      · rintro ⟨hx | hx, hns⟩
        · exact Or.inl hx
        · by_cases hxa : x = a
          · exact Or.inl hxa
          · exact Or.inr ⟨hx, fun hs => (by rcases hs with hs | hs; exact hxa hs; exact hns hs)⟩

theorem nodup_pdDedupAux {α : Type} [DecidableEq α] (seen l : List α) :
    (pdDedupAux seen l).Nodup := by
  induction l generalizing seen with
  | nil => simp [pdDedupAux]
  | cons a t ih =>
    by_cases ha : a ∈ seen
    · simpa [pdDedupAux, if_pos ha] using ih seen
    · simp only [pdDedupAux, if_neg ha, List.nodup_cons]
      refine ⟨fun hmem => ?_, ih (a :: seen)⟩
      rw [mem_pdDedupAux] at hmem
      exact hmem.2 (List.mem_cons_self a seen)

theorem mem_pdDedup {α : Type} [DecidableEq α] (l : List α) (x : α) :
    x ∈ pdDedup l ↔ x ∈ l := by
  simp [pdDedup, mem_pdDedupAux]

theorem nodup_pdDedup {α : Type} [DecidableEq α] (l : List α) :
    (pdDedup l).Nodup :=
  nodup_pdDedupAux [] l

theorem toFinset_pdDedup {α : Type} [DecidableEq α] (l : List α) :
    (pdDedup l).toFinset = l.toFinset := by
  ext x
  simp [mem_pdDedup]

theorem length_pdDedup {α : Type} [DecidableEq α] (l : List α) :
    (pdDedup l).length = l.toFinset.card := by
  rw [← toFinset_pdDedup]
  exact (List.toFinset_card_of_nodup (nodup_pdDedup l)).symm

/-! ### Claim C6: identifier normalization -/

/-- C6: `normalize_company_id` converts any raw value to a string (its
Python string representation), strips surrounding whitespace, and strips
one trailing ".0"; in particular the representations "600000",
"600000.0", " 600000 " (and the number 600000) all normalize to
"600000", and only a single trailing ".0" is removed. -/
theorem normalize_company_id_spec :
    (∀ v : Val, ∃ s : String, normalize_company_id v = Val.str s) ∧
    normalize_company_id (Val.str "600000") = Val.str "600000" ∧
    normalize_company_id (Val.str "600000.0") = Val.str "600000" ∧
    normalize_company_id (Val.str " 600000 ") = Val.str "600000" ∧
    normalize_company_id (Val.int 600000) = Val.str "600000" ∧
    normalize_company_id (Val.str "600000.0.0") = Val.str "600000.0" := by
  refine ⟨fun v => ⟨_, rfl⟩, ?_, ?_, ?_, ?_, ?_⟩ <;> decide

/-! ### Claim C4: coverage with no year column -/

/-- A dataset whose single company cell is missing (NaN). -/
def c4Table : Table := ⟨["Stkcd"], [[("Stkcd", Val.null)]]⟩

/-- C4 (code bug): with no year column, on a table whose only company value
is null the code's coverage set is {"nan"} for every target-year set and
threshold — `dropna` runs after `astype(str)`, so the null survives as
the string "nan" — while the spec's rule (distinct normalized company ids
among the non-null raw values) yields the empty set. -/
theorem companies_no_year_includes_nan :
    (∀ (ty : Finset Int) (minY : Nat),
      companies_with_full_years c4Table "Stkcd" none ty minY = {"nan"}) ∧
    specNonNullCoverage c4Table "Stkcd" = ∅ := by
  constructor
  · intro ty minY
    have h0 : companies_with_full_years c4Table "Stkcd" none ty minY =
        companies_with_full_years c4Table "Stkcd" none ∅ 0 := rfl
    rw [h0]
    decide
  · decide

/-! ### Claim C8: year-end row filter -/

/-- C8: with a declared date column, `filter_year_end` keeps each row with
exactly its original multiplicity when its date cell parses (with
coercion) to a month-12 day-31 calendar date, and drops it entirely
otherwise; unparsable dates coerce to NaT and are dropped, never raised. -/
theorem filter_year_end_count (df : Table) (col : String) (r : Row) :
    (filter_year_end df (some col)).rows.count r =
      match parseDateVal (getVal r col) with
      | some d => if d.month = 12 ∧ d.day = 31 then df.rows.count r else 0
      | none => 0 := by
  have hrows : (filter_year_end df (some col)).rows
      = df.rows.filter
          (fun r =>
            match parseDateVal (getVal r col) with
            | some d => d.month == 12 && d.day == 31
            | none => false) := by
    simp only [filter_year_end]
    rw [List.map_map]
    exact maskFilter_map_self _ _
  rw [hrows, count_filter_eq]
  cases hp : parseDateVal (getVal r col) with
  | none => simp [hp]
  | some d =>
    by_cases h12 : d.month = 12 ∧ d.day = 31
    · simp [hp, h12.1, h12.2]
    · rcases Decidable.not_and_iff_or_not.mp h12 with hm | hd
      · simp [hp, h12, hm]
      · simp [hp, h12, hd]

/-! ### Claim C2: empty retention intersection -/

/-- C2: when the intersection of the per-dataset coverage sets is empty,
the decision core of `process` still yields every per-dataset diagnostic
(rows, distinct non-null companies, companies meeting the threshold —
printed before the check) and fails with the EmptyRetention RuntimeError,
producing no filtered outputs. -/
theorem process_empty_retention (datasets : List LoadedDS) (ty : Finset Int)
    (minY : Nat)
    (h : intersectAll (datasets.map
      (fun d => companies_with_full_years d.table d.companyCol d.yearCol ty minY)) = ∅) :
    processModel datasets ty minY =
      (datasets.map (fun d => (d.key, diagOf d ty minY)),
       Except.error emptyRetentionMsg) := by
  simp [processModel, h]

/-- Two loaded single-row datasets with disjoint company coverage. -/
def w2a : LoadedDS := ⟨"cg_co", ⟨["Stkcd"], [[("Stkcd", Val.str "600000")]]⟩, "Stkcd", none⟩

def w2b : LoadedDS := ⟨"fs_combas", ⟨["Stkcd"], [[("Stkcd", Val.str "600001")]]⟩, "Stkcd", none⟩

theorem process_empty_retention_witness :
    intersectAll ([w2a, w2b].map
        (fun d => companies_with_full_years d.table d.companyCol d.yearCol ∅ 0)) = ∅ ∧
    processModel [w2a, w2b] ∅ 0 =
      ([("cg_co", diagOf w2a ∅ 0), ("fs_combas", diagOf w2b ∅ 0)],
       Except.error emptyRetentionMsg) := by
  refine ⟨by decide, ?_⟩
  simpa using process_empty_retention [w2a, w2b] ∅ 0 (by decide)

/-! ### Claim C7: coverage antitone in the threshold -/

/-- C7: raising the minimum-years threshold never adds companies: the
coverage set at a higher threshold is contained in the one at any lower
threshold (with no year column the two sets are equal). -/
theorem companies_with_full_years_antitone (df : Table) (cc : String)
    (yc : Option String) (ty : Finset Int) {m1 m2 : Nat} (h : m1 ≤ m2) :
    companies_with_full_years df cc yc ty m2 ⊆
      companies_with_full_years df cc yc ty m1 := by
  cases yc with
  | none => exact fun x hx => hx
  | some y =>
    simp only [companies_with_full_years]
    intro x hx
    simp only [Finset.mem_filter] at hx ⊢
    exact ⟨hx.1, le_trans h hx.2⟩

/-- A two-row dated dataset for the threshold-antitone witness. -/
def w7df : Table := ⟨["Stkcd", "Accper"],
  [[("Stkcd", Val.str "600000"), ("Accper", Val.str "2020-12-31")],
   [("Stkcd", Val.str "600000"), ("Accper", Val.str "2021-12-31")]]⟩

theorem companies_with_full_years_antitone_witness :
    1 ≤ 2 ∧
    companies_with_full_years w7df "Stkcd" (some "Accper") {2020, 2021} 2 ⊆
      companies_with_full_years w7df "Stkcd" (some "Accper") {2020, 2021} 1 :=
  ⟨by decide,
   companies_with_full_years_antitone w7df "Stkcd" (some "Accper") {2020, 2021}
     (by decide)⟩

/-! ### Claim C9: spine cardinality -/

/-- C9: for every source among the spine's inputs, the spine — the
deduplicated union of per-source deduplicated key projections — has at
least as many rows as that source's deduplicated (company, date)
projection; in particular at least as many as the largest one. -/
theorem build_spine_card_ge (dfs : List Table) (keyCols : List String)
    (df : Table) (h : df ∈ dfs) :
    (pdDedup (df.rows.map (projRow keyCols))).length ≤
      (build_spine dfs keyCols).rows.length := by
  simp only [build_spine]
  rw [length_pdDedup, length_pdDedup]
  apply Finset.card_le_card
  intro x hx
  rw [List.mem_toFinset] at hx
  rw [List.mem_toFinset, List.mem_flatten]
  exact ⟨pdDedup (df.rows.map (projRow keyCols)),
    List.mem_map_of_mem _ h, (mem_pdDedup _ x).mpr hx⟩

/-- Two small dated sources for the spine-cardinality witness. -/
def w9a : Table := ⟨["Symbol", "Date"],
  [[("Symbol", Val.str "1"), ("Date", Val.str "2020-12-31")]]⟩

def w9b : Table := ⟨["Symbol", "Date"],
  [[("Symbol", Val.str "2"), ("Date", Val.str "2020-12-31")],
   [("Symbol", Val.str "2"), ("Date", Val.str "2021-12-31")]]⟩

theorem build_spine_card_ge_witness :
    w9b ∈ [w9a, w9b] ∧
    (pdDedup (w9b.rows.map (projRow ["Symbol", "Date"]))).length ≤
      (build_spine [w9a, w9b] ["Symbol", "Date"]).rows.length :=
  ⟨by decide, build_spine_card_ge [w9a, w9b] ["Symbol", "Date"] w9b (by decide)⟩

/-! ### Claim C5: fallback date-column resolution -/

theorem contains_eq_true_iff {α : Type} [BEq α] [LawfulBEq α] (l : List α)
    (a : α) : l.contains a = true ↔ a ∈ l := by
  induction l with
  | nil => simp
  | cons b t ih => simp

/-- C5: when a source's declared date column "Accper" is absent but the
fallback variant "Accper.1" is present (and the Symbol key exists on both
sides of the join), the merge loop resolves the date column to
"Accper.1", renames it to the canonical "Date" key, and the join step
succeeds instead of raising a missing-column KeyError. -/
theorem fallback_date_resolution (m df : Table) (key : String)
    (hSymM : "Symbol" ∈ m.cols) (hDateM : "Date" ∈ m.cols)
    (hSym : "Symbol" ∈ df.cols) (hAbs : "Accper" ∉ df.cols)
    (hFb : "Accper.1" ∈ df.cols) :
    resolve_date_col "Accper" df.cols = "Accper.1" ∧
    ∃ t, joinSourceStep m key df (some "Accper") = Except.ok t := by
  have hAbs' : df.cols.contains "Accper" = false := by
    rw [← Bool.not_eq_true, contains_eq_true_iff]
    exact hAbs
  have hFb' : df.cols.contains "Accper.1" = true :=
    (contains_eq_true_iff _ _).mpr hFb
  have hres : resolve_date_col "Accper" df.cols = "Accper.1" := by
    simp [resolve_date_col, fallback_candidates, hAbs, hFb, List.find?]
  refine ⟨hres, ?_⟩
  have hS1 : "Symbol" ∈ (renameCol df "Accper.1" "Date").cols := by
    simp only [renameCol]
    exact List.mem_map.mpr ⟨"Symbol", hSym, by decide⟩
  have hD1 : "Date" ∈ (renameCol df "Accper.1" "Date").cols := by
    simp only [renameCol]
    exact List.mem_map.mpr ⟨"Accper.1", hFb, by decide⟩
  have hS2 : "Symbol" ∈
      (prefixNonKey (renameCol df "Accper.1" "Date") key ["Symbol", "Date"]).cols := by
    simp only [prefixNonKey]
    exact List.mem_map.mpr ⟨"Symbol", hS1, rfl⟩
  have hD2 : "Date" ∈
      (prefixNonKey (renameCol df "Accper.1" "Date") key ["Symbol", "Date"]).cols := by
    simp only [prefixNonKey]
    exact List.mem_map.mpr ⟨"Date", hD1, rfl⟩
  refine ⟨leftMerge m
    (prefixNonKey (renameCol df "Accper.1" "Date") key ["Symbol", "Date"])
    ["Symbol", "Date"], ?_⟩
  simp [joinSourceStep, preparedSource, hres, List.all, hSymM, hDateM, hS2, hD2]

/-- A merged table and a post-join source whose date column carries the
".1" suffix, for the fallback-resolution witness. -/
def w5m : Table := ⟨["Symbol", "Date"],
  [[("Symbol", Val.str "600000"), ("Date", Val.str "2020-12-31")]]⟩

def w5df : Table := ⟨["Symbol", "Accper.1", "B001100000"],
  [[("Symbol", Val.str "600000"), ("Accper.1", Val.str "2020-12-31"),
    ("B001100000", Val.int 7)]]⟩

theorem fallback_date_resolution_witness :
    resolve_date_col "Accper" w5df.cols = "Accper.1" ∧
    isOkE (joinSourceStep w5m "fs_comins" w5df (some "Accper")) = true := by
  have h := fallback_date_resolution w5m w5df "fs_comins" (by decide) (by decide)
    (by decide) (by decide) (by decide)
  refine ⟨h.1, ?_⟩
  obtain ⟨t, ht⟩ := h.2
  rw [ht]
  rfl

/-! ### Claim C1: merge row-count invariant -/

theorem keyTuple_all_iff (keys : List String) (rr lr : Row) :
    (keys.all (fun k => getVal rr k == getVal lr k)) = true ↔
      keyTupleOf keys rr = keyTupleOf keys lr := by
  induction keys with
  | nil => simp [keyTupleOf]
  | cons k t ih => simp [keyTupleOf, ih]

theorem matchRows_length_le_one (rows : List Row) (keys : List String)
    (lr : Row) (hnd : (rows.map (keyTupleOf keys)).Nodup) :
    (matchRows rows keys lr).length ≤ 1 := by
  induction rows with
  | nil => simp [matchRows]
  | cons a t ih =>
    simp only [List.map_cons, List.nodup_cons] at hnd
    by_cases ha : (keys.all (fun k => getVal a k == getVal lr k)) = true
    · have htail : matchRows t keys lr = [] := by
        rw [matchRows, List.filter_eq_nil_iff]
        intro b hb hball
        have h1 := (keyTuple_all_iff keys b lr).mp hball
        have h2 := (keyTuple_all_iff keys a lr).mp ha
        have hmem : keyTupleOf keys b ∈ t.map (keyTupleOf keys) :=
          List.mem_map_of_mem _ hb
        rw [h1.trans h2.symm] at hmem
        exact hnd.1 hmem
      rw [matchRows, List.filter_cons, ha]
      have hf : List.filter (fun rr => keys.all (fun k => getVal rr k == getVal lr k)) t
          = matchRows t keys lr := rfl
      simp [hf, htail]
    · have ha' : (keys.all (fun k => getVal a k == getVal lr k)) = false := by
        simpa using ha
      rw [matchRows, List.filter_cons, ha']
      have hf : List.filter (fun rr => keys.all (fun k => getVal rr k == getVal lr k)) t
          = matchRows t keys lr := rfl
      simpa [hf] using ih hnd.2

theorem length_flatMap_const_one {α β : Type} (l : List α) (f : α → List β)
    (h : ∀ a, (f a).length = 1) : (l.flatMap f).length = l.length := by
  induction l with
  | nil => simp
  | cons a t ih => simp [h a, ih, Nat.add_comm]

theorem leftMerge_length_eq (left right : Table) (keys : List String)
    (hnd : (right.rows.map (keyTupleOf keys)).Nodup) :
    (leftMerge left right keys).rows.length = left.rows.length := by
  simp only [leftMerge]
  apply length_flatMap_const_one
  intro lr
  cases hm : matchRows right.rows keys lr with
  | nil => simp [hm]
  | cons m ms =>
    have hle := matchRows_length_le_one right.rows keys lr hnd
    rw [hm] at hle
    have hms : ms = [] := by
      cases ms with
      | nil => rfl
      | cons x xs => simp [List.length_cons] at hle
    subst hms
    simp [hm]

theorem foldl_mergeStep_error (ss : List MergeSource) (e : String) :
    ss.foldl mergeStepE (Except.error e) = Except.error e := by
  induction ss with
  | nil => rfl
  | cons s t ih => simpa [mergeStepE] using ih

theorem joinSourceStep_length (m m' : Table) (key : String) (df : Table)
    (dc : Option String)
    (hnd : (sourceKeyTuples (key, df, dc)).Nodup)
    (h : joinSourceStep m key df dc = Except.ok m') :
    m'.rows.length = m.rows.length := by
  simp only [sourceKeyTuples] at hnd
  simp only [joinSourceStep] at h
  split at h
  · simp only [Except.ok.injEq] at h
    subst h
    exact leftMerge_length_eq m _ _ hnd
  · simp at h

theorem mergeAll_foldl_length (sources : List MergeSource) :
    ∀ (m t : Table), (∀ src ∈ sources, (sourceKeyTuples src).Nodup) →
      sources.foldl mergeStepE (Except.ok m) = Except.ok t →
      t.rows.length = m.rows.length := by
  induction sources with
  | nil =>
    intro m t _ h
    simp only [List.foldl_nil, Except.ok.injEq] at h
    rw [← h]
  | cons s ss ih =>
    intro m t hnd hfold
    rw [List.foldl_cons] at hfold
    cases hj : mergeStepE (Except.ok m) s with
    | error e =>
      rw [hj, foldl_mergeStep_error] at hfold
      exact absurd hfold (by simp)
    | ok m' =>
      rw [hj] at hfold
      have hstep : joinSourceStep m s.1 s.2.1 s.2.2 = Except.ok m' := hj
      have hlen' : m'.rows.length = m.rows.length :=
        joinSourceStep_length m m' s.1 s.2.1 s.2.2
          (by simpa using hnd s (List.mem_cons_self s ss)) hstep
      have := ih m' t (fun src hs => hnd src (List.mem_cons_of_mem s hs)) hfold
      rw [this, hlen']

/-- C1 (amended): whenever every source exposes pairwise-distinct join-key
tuples, the join loop preserves the spine's row count exactly — a left
join never drops a spine row, and missing keys only produce null-filled
columns.  (Without that condition a source with duplicate keys fans the
merged rows out; see the counterexample.) -/
theorem merge_rowcount_eq_of_unique_keys (spine : Table)
    (sources : List MergeSource)
    (hnd : ∀ src ∈ sources, (sourceKeyTuples src).Nodup) :
    ∀ t, mergeAll spine sources = Except.ok t →
      t.rows.length = spine.rows.length := by
  intro t ht
  exact mergeAll_foldl_length sources spine t hnd ht

/-- A diversification-style source with two rows sharing one
(Symbol, EndDate) key. -/
def c1dup : Table := ⟨["Symbol", "EndDate", "Product"],
  [[("Symbol", Val.str "600000"), ("EndDate", Val.str "2020-12-31"),
    ("Product", Val.str "a")],
   [("Symbol", Val.str "600000"), ("EndDate", Val.str "2020-12-31"),
    ("Product", Val.str "b")]]⟩

/-- The (Symbol, Date) projection of `c1dup` as prepared for the spine. -/
def c1part : Table := ⟨["Symbol", "Date"],
  c1dup.rows.map (fun r => [("Symbol", getVal r "Symbol"), ("Date", getVal r "EndDate")])⟩

/-- The spine built from that single source. -/
def c1spine : Table := build_spine [c1part] ["Symbol", "Date"]

/-- C1 (counterexample): with a source holding two rows for one
(Symbol, Date) key, the spine has one row but the merged table has two —
the merged row count does not equal the spine row count for every
sequence of sources. -/
theorem merge_rowcount_counterexample :
    c1spine.rows.length = 1 ∧
    rowCountE (mergeAll c1spine [("mc_pro", c1dup, some "EndDate")]) = some 2 :=
  ⟨by decide, by decide⟩

/-- A well-behaved one-row source and spine for the row-count witness. -/
def c1wSpine : Table := ⟨["Symbol", "Date"],
  [[("Symbol", Val.str "600000"), ("Date", Val.str "2020-12-31")]]⟩

def c1wdf : Table := ⟨["Symbol", "Accper", "TotalAssets"],
  [[("Symbol", Val.str "600000"), ("Accper", Val.str "2020-12-31"),
    ("TotalAssets", Val.int 100)]]⟩

def c1wSources : List MergeSource := [("fs_combas", c1wdf, some "Accper")]

def c1wMerged : Table := ⟨["Symbol", "Date", "fs_combas_TotalAssets"],
  [[("Symbol", Val.str "600000"), ("Date", Val.str "2020-12-31"),
    ("fs_combas_TotalAssets", Val.int 100)]]⟩

theorem merge_rowcount_witness :
    (∀ src ∈ c1wSources, (sourceKeyTuples src).Nodup) ∧
    rowCountE (mergeAll c1wSpine c1wSources) = some c1wSpine.rows.length := by
  have hok : mergeAll c1wSpine c1wSources = Except.ok c1wMerged := rfl
  have h := merge_rowcount_eq_of_unique_keys c1wSpine c1wSources (by decide)
    c1wMerged hok
  refine ⟨by decide, ?_⟩
  rw [hok]
  simp only [rowCountE]
  rw [h]

/-! ### Claim C10: the filters do not mutate their input table -/

theorem hget_append_lt (h : Heap) (x : Table) (i : Nat) (hi : i < h.length) :
    hget (h ++ [x]) i = hget h i := by
  unfold hget
  exact List.getD_append _ _ _ _ hi

theorem hget_set_ne (h : Heap) (j : Nat) (t : Table) (i : Nat) (hne : j ≠ i) :
    hget (h.set j t) i = hget h i := by
  simp [hget, List.getD]
  rw [List.getElem?_set_ne hne]

theorem frame_one_write (h : Heap) (x a : Table) (i : Nat) (hi : i < h.length) :
    hget ((h ++ [x]).set h.length a) i = hget h i := by
  rw [hget_set_ne _ _ _ _ (by omega), hget_append_lt _ _ _ hi]

theorem frame_two_writes (h : Heap) (x a b : Table) (i : Nat)
    (hi : i < h.length) :
    hget (((h ++ [x]).set h.length a).set h.length b) i = hget h i := by
  rw [hget_set_ne _ _ _ _ (by omega)]
  exact frame_one_write h x a i hi

/-- C10: neither `companies_with_full_years` nor
`filter_for_companies_and_years` mutates the caller's table: both start
from `df.copy()`, every column write lands on the fresh copy, and the
caller's reference dereferences to the same rows, columns and values
after the call as before. -/
theorem copy_discipline_frame (h : Heap) (i : Nat) (cc : String)
    (yc : Option String) (ty : Finset Int) (minY : Nat) (keep : Finset String)
    (hi : i < h.length) :
    hget (companies_with_full_years_heap h i cc yc ty minY).1 i = hget h i ∧
    hget (filter_for_companies_and_years_heap h i cc yc keep ty).1 i = hget h i := by
  cases yc with
  | none =>
    constructor
    · simp only [companies_with_full_years_heap, halloc, hassign]
      exact frame_one_write _ _ _ _ hi
    · simp only [filter_for_companies_and_years_heap, halloc, hassign]
      exact frame_one_write _ _ _ _ hi
  | some y =>
    constructor
    · simp only [companies_with_full_years_heap, halloc, hassign]
      exact frame_two_writes _ _ _ _ _ hi
    · simp only [filter_for_companies_and_years_heap, halloc, hassign]
      exact frame_two_writes _ _ _ _ _ hi

/-- A one-row table for the frame witness. -/
def c10t : Table := ⟨["Stkcd"], [[("Stkcd", Val.str "600000")]]⟩

theorem copy_discipline_frame_witness :
    (0 : Nat) < ([c10t] : Heap).length ∧
    hget (companies_with_full_years_heap [c10t] 0 "Stkcd" none ∅ 0).1 0 = hget [c10t] 0 ∧
    hget (filter_for_companies_and_years_heap [c10t] 0 "Stkcd" none ∅ ∅).1 0 = hget [c10t] 0 := by
  have h := copy_discipline_frame [c10t] 0 "Stkcd" none ∅ 0 ∅ (by decide)
  exact ⟨by decide, h.1, h.2⟩

/-! ### Claim C3: idempotence of the company/year filter -/

theorem map_id_of_mem {α : Type} (l : List α) (f : α → α)
    (h : ∀ a ∈ l, f a = a) : l.map f = l := by
  induction l with
  | nil => rfl
  | cons a t ih =>
    simp [h a (List.mem_cons_self a t),
      ih (fun b hb => h b (List.mem_cons_of_mem a hb))]

theorem assignColVals_rows_mapped (rows : List Row) (c : String)
    (f : Row → Val) :
    (rows.zip (rows.map f)).map (fun p => setCol p.1 c p.2) =
      rows.map (fun r => setCol r c (f r)) := by
  induction rows with
  | nil => simp
  | cons a t ih => simp [ih]

theorem normalize_year_strict (vals : List Val)
    (h : ¬((vals.map strict_year).all (fun v => v == Val.null) = true)) :
    normalize_year vals = vals.map strict_year := by
  simp only [normalize_year]
  rw [if_neg h]

theorem normalize_year_flex (vals : List Val)
    (h : (vals.map strict_year).all (fun v => v == Val.null) = true) :
    normalize_year vals = vals.map flexible_year := by
  simp only [normalize_year]
  rw [if_pos h]

theorem yearInTy_true_int (v : Val) (ty : Finset Int)
    (h : yearInTy v ty = true) : ∃ n, v = Val.int n := by
  cases v with
  | int n => exact ⟨n, rfl⟩
  | null => simp [yearInTy] at h
  | str s => simp [yearInTy] at h

theorem dropColName_assign_year (cs : List String) :
    dropColName (if cs.contains "__year" then cs else cs ++ ["__year"]) "__year" =
      dropColName cs "__year" := by
  by_cases h : cs.contains "__year" = true
  · rw [if_pos h]
  · rw [if_neg h]
    simp [dropColName, List.filter_append]

theorem mem_dropColName (cs : List String) (a c : String) :
    a ∈ dropColName cs c ↔ a ∈ cs ∧ a ≠ c := by
  simp [dropColName, List.mem_filter]

theorem dropColName_idem (cs : List String) (c : String) :
    dropColName (dropColName cs c) c = dropColName cs c := by
  simp [dropColName, List.filter_filter, Bool.and_self]

/-- Shape of the filter with no year column: normalize the company column,
then keep the rows whose normalized id is retained. -/
theorem filter_none_eq (df : Table) (cc : String) (keep : Finset String)
    (ty : Finset Int) :
    filter_for_companies_and_years df cc none keep ty =
      ⟨(if df.cols.contains cc then df.cols else df.cols ++ [cc]),
       (df.rows.map (fun r => setCol r cc (normalize_company_id (getVal r cc)))).filter
         (fun r => valInKeep (getVal r cc) keep)⟩ := by
  unfold filter_for_companies_and_years
  simp only [assignColVals]
  rw [assignColVals_rows_mapped, maskFilter_map_self]

/-- Shape of the filter with a year column, given the branch `g` the
column-level year parser takes on this input. -/
theorem filter_some_eq (df : Table) (cc y : String) (keep : Finset String)
    (ty : Finset Int) (g : Val → Val)
    (hg : normalize_year
        ((df.rows.map (fun r => setCol r cc (normalize_company_id (getVal r cc)))).map
          (fun r => getVal r y)) =
      (df.rows.map (fun r => setCol r cc (normalize_company_id (getVal r cc)))).map
        (fun r => g (getVal r y))) :
    filter_for_companies_and_years df cc (some y) keep ty =
      ⟨dropColName (if df.cols.contains cc then df.cols else df.cols ++ [cc]) "__year",
       ((df.rows.map (fun r => setCol r cc (normalize_company_id (getVal r cc)))).filter
          (fun r => valInKeep (getVal r cc) keep && yearInTy (g (getVal r y)) ty)).map
         (fun r => dropCol r "__year")⟩ := by
  unfold filter_for_companies_and_years
  simp only [assignColVals]
  rw [assignColVals_rows_mapped]
  set M := df.rows.map (fun r => setCol r cc (normalize_company_id (getVal r cc))) with hM
  rw [hg, assignColVals_rows_mapped]
  simp only [List.map_map, Function.comp_def, getVal_setCol_self, dropCol_setCol]
  rw [zipWith_and_map, maskFilter_map_map, dropColName_assign_year]

theorem contains_if_self (cs : List String) (cc : String) :
    (if cs.contains cc then cs else cs ++ [cc]).contains cc = true := by
  by_cases h : cs.contains cc = true
  · rw [if_pos h]
    exact h
  · rw [if_neg h, contains_eq_true_iff]
    simp

/-- A table whose company column is already normalized, fully retained and
(with no year column) fully kept is a fixed point of the filter. -/
theorem filter_none_fixpoint (t : Table) (cc : String) (keep : Finset String)
    (ty : Finset Int)
    (hcols : t.cols.contains cc = true)
    (hkey : ∀ r ∈ t.rows, keyPresent r cc = true)
    (hfixv : ∀ r ∈ t.rows, normalize_company_id (getVal r cc) = getVal r cc)
    (hkeep : ∀ r ∈ t.rows, valInKeep (getVal r cc) keep = true) :
    filter_for_companies_and_years t cc none keep ty = t := by
  rw [filter_none_eq]
  have hmap : t.rows.map (fun r => setCol r cc (normalize_company_id (getVal r cc)))
      = t.rows := by
    apply map_id_of_mem
    intro r hr
    rw [hfixv r hr]
    exact setCol_getVal_of_keyPresent r cc (hkey r hr)
  rw [if_pos hcols, hmap, List.filter_eq_self.mpr hkeep]

/-- A table whose company column is already normalized and whose rows all
pass both membership tests is a fixed point of the filter with a year
column, provided the column-level year parse acts as the per-cell map
`g` on it. -/
theorem filter_some_fixpoint (t : Table) (cc y : String) (keep : Finset String)
    (ty : Finset Int) (g : Val → Val)
    (hcols : t.cols.contains cc = true)
    (hycols : "__year" ∉ t.cols)
    (hkey : ∀ r ∈ t.rows, keyPresent r cc = true)
    (hnokey : ∀ r ∈ t.rows, keyPresent r "__year" = false)
    (hfixv : ∀ r ∈ t.rows, normalize_company_id (getVal r cc) = getVal r cc)
    (hkeep : ∀ r ∈ t.rows, valInKeep (getVal r cc) keep = true)
    (hyear : ∀ r ∈ t.rows, yearInTy (g (getVal r y)) ty = true)
    (hg : normalize_year (t.rows.map (fun r => getVal r y)) =
      t.rows.map (fun r => g (getVal r y))) :
    filter_for_companies_and_years t cc (some y) keep ty = t := by
  have hmap : t.rows.map (fun r => setCol r cc (normalize_company_id (getVal r cc)))
      = t.rows := by
    apply map_id_of_mem
    intro r hr
    rw [hfixv r hr]
    exact setCol_getVal_of_keyPresent r cc (hkey r hr)
  have hgM : normalize_year
      ((t.rows.map (fun r => setCol r cc (normalize_company_id (getVal r cc)))).map
        (fun r => getVal r y)) =
      (t.rows.map (fun r => setCol r cc (normalize_company_id (getVal r cc)))).map
        (fun r => g (getVal r y)) := by
    rw [hmap]
    exact hg
  rw [filter_some_eq t cc y keep ty g hgM, hmap, if_pos hcols]
  have hfeq : t.rows.filter
      (fun r => valInKeep (getVal r cc) keep && yearInTy (g (getVal r y)) ty)
      = t.rows := by
    apply List.filter_eq_self.mpr
    intro r hr
    rw [hkeep r hr, hyear r hr]
    rfl
  rw [hfeq]
  have hdmap : t.rows.map (fun r => dropCol r "__year") = t.rows :=
    map_id_of_mem _ _ (fun r hr => dropCol_eq_self_of_not_key r _ (hnokey r hr))
  rw [hdmap]
  have hdcols : dropColName t.cols "__year" = t.cols := by
    apply List.filter_eq_self.mpr
    intro c hc
    simp only [bne_iff_ne, ne_eq, decide_eq_true_eq]
    intro hcy
    exact hycols (hcy ▸ hc)
  rw [hdcols]

/-- A dataset whose company id still ends in ".0" after one
normalization. -/
def c3df : Table := ⟨["Stkcd"], [[("Stkcd", Val.str "600000.0.0")]]⟩

/-- The retained set used by the idempotence counterexample. -/
def c3keep : Finset String := {"600000.0"}

/-- C3 (counterexample): re-running the company/year filter on its own
output with the same retained set and target years is not always the
identity: the company value "600000.0.0" normalizes to "600000.0"
(retained) on the first pass but re-normalizes to "600000" (dropped) on
the second, so the second output loses the row. -/
theorem filter_not_idempotent :
    filter_for_companies_and_years
        (filter_for_companies_and_years c3df "Stkcd" none c3keep ∅)
        "Stkcd" none c3keep ∅ ≠
      filter_for_companies_and_years c3df "Stkcd" none c3keep ∅ := by
  decide

theorem filter_none_members (df : Table) (cc : String) (keep : Finset String)
    (ty : Finset Int) :
    ∀ r ∈ (filter_for_companies_and_years df cc none keep ty).rows,
      keyPresent r cc = true ∧ valInKeep (getVal r cc) keep = true := by
  rw [filter_none_eq]
  intro r hr
  have hrM := List.mem_of_mem_filter hr
  have hP := List.of_mem_filter hr
  obtain ⟨r0, _, hr0⟩ := List.mem_map.mp hrM
  constructor
  · rw [← hr0]
    exact keyPresent_setCol r0 cc _
  · exact hP

theorem filter_some_members (df : Table) (cc y : String) (keep : Finset String)
    (ty : Finset Int) (g : Val → Val) (hcc : cc ≠ "__year") (hy : y ≠ "__year")
    (hg : normalize_year
        ((df.rows.map (fun r => setCol r cc (normalize_company_id (getVal r cc)))).map
          (fun r => getVal r y)) =
      (df.rows.map (fun r => setCol r cc (normalize_company_id (getVal r cc)))).map
        (fun r => g (getVal r y))) :
    ∀ r ∈ (filter_for_companies_and_years df cc (some y) keep ty).rows,
      ∃ r1, r1 ∈ (df.rows.map (fun r => setCol r cc (normalize_company_id (getVal r cc)))) ∧
        getVal r y = getVal r1 y ∧
        keyPresent r cc = true ∧ keyPresent r "__year" = false ∧
        valInKeep (getVal r cc) keep = true ∧
        yearInTy (g (getVal r y)) ty = true := by
  rw [filter_some_eq df cc y keep ty g hg]
  intro r hr
  obtain ⟨r1, hr1, rfl⟩ := List.mem_map.mp hr
  have hr1M := List.mem_of_mem_filter hr1
  have hP1 := List.of_mem_filter hr1
  simp only [Bool.and_eq_true] at hP1
  obtain ⟨hkeep1, hyear1⟩ := hP1
  obtain ⟨r0, _, hr0⟩ := List.mem_map.mp hr1M
  refine ⟨r1, hr1M, getVal_dropCol_ne _ _ _ hy, ?_,
    keyPresent_dropCol_self _ _, ?_, ?_⟩
  · rw [keyPresent_dropCol_ne _ _ _ hcc, ← hr0]
    exact keyPresent_setCol r0 cc _
  · rw [getVal_dropCol_ne _ _ _ hcc]
    exact hkeep1
  · rw [getVal_dropCol_ne _ _ _ hy]
    exact hyear1

/-- C3 (amended): applying `filter_for_companies_and_years` to its own
output with the same retained set and target years yields that output
unchanged, provided every company value of the output is a fixed point of
normalization (it does not itself still end in ".0") and the company and
year column names are distinct from the transient "__year" name; the
counterexample shows the fixed-point proviso is necessary. -/
theorem filter_idempotent_of_normalized_fixed (df : Table) (cc : String)
    (yc : Option String) (keep : Finset String) (ty : Finset Int)
    (hcc : cc ≠ "__year")
    (hyc : ∀ y, yc = some y → y ≠ "__year")
    (hfix : ∀ r ∈ (filter_for_companies_and_years df cc yc keep ty).rows,
      normalize_company_id (getVal r cc) = getVal r cc) :
    filter_for_companies_and_years
        (filter_for_companies_and_years df cc yc keep ty) cc yc keep ty =
      filter_for_companies_and_years df cc yc keep ty := by
  cases yc with
  | none =>
    have hmem := filter_none_members df cc keep ty
    have hFcols : (filter_for_companies_and_years df cc none keep ty).cols =
        (if df.cols.contains cc then df.cols else df.cols ++ [cc]) := by
      rw [filter_none_eq]
    refine filter_none_fixpoint _ cc keep ty ?_ ?_ hfix ?_
    · rw [hFcols]
      exact contains_if_self df.cols cc
    · intro r hr
      exact (hmem r hr).1
    · intro r hr
      exact (hmem r hr).2
  | some y =>
    have hy : y ≠ "__year" := hyc y rfl
    by_cases hP : (((df.rows.map (fun r => setCol r cc (normalize_company_id (getVal r cc)))).map
        (fun r => getVal r y)).map strict_year).all (fun v => v == Val.null) = true
    · have hg : normalize_year
          ((df.rows.map (fun r => setCol r cc (normalize_company_id (getVal r cc)))).map
            (fun r => getVal r y)) =
          (df.rows.map (fun r => setCol r cc (normalize_company_id (getVal r cc)))).map
            (fun r => flexible_year (getVal r y)) := by
        rw [normalize_year_flex _ hP, List.map_map]
        simp only [Function.comp_def]
      have hmem := filter_some_members df cc y keep ty flexible_year hcc hy hg
      have hFcols : (filter_for_companies_and_years df cc (some y) keep ty).cols =
          dropColName (if df.cols.contains cc then df.cols else df.cols ++ [cc]) "__year" := by
        rw [filter_some_eq df cc y keep ty flexible_year hg]
      have hg2 : normalize_year
          ((filter_for_companies_and_years df cc (some y) keep ty).rows.map
            (fun r => getVal r y)) =
          (filter_for_companies_and_years df cc (some y) keep ty).rows.map
            (fun r => flexible_year (getVal r y)) := by
        have hall : ((((filter_for_companies_and_years df cc (some y) keep ty).rows.map
            (fun r => getVal r y)).map strict_year)).all (fun v => v == Val.null) = true := by
          apply List.all_eq_true.mpr
          intro x hx
          obtain ⟨v, hv, rfl⟩ := List.mem_map.mp hx
          obtain ⟨r, hrF, rfl⟩ := List.mem_map.mp hv
          obtain ⟨r1, hr1M, hgy, _, _, _, _⟩ := hmem r hrF
          rw [hgy]
          exact List.all_eq_true.mp hP _
            (List.mem_map_of_mem _ (List.mem_map_of_mem _ hr1M))
        rw [normalize_year_flex _ hall, List.map_map]
        simp only [Function.comp_def]
      refine filter_some_fixpoint _ cc y keep ty flexible_year ?_ ?_ ?_ ?_ hfix ?_ ?_ hg2
      · rw [hFcols, contains_eq_true_iff]
        apply (mem_dropColName _ _ _).mpr
        exact ⟨(contains_eq_true_iff _ _).mp (contains_if_self df.cols cc), hcc⟩
      · rw [hFcols]
        intro hmem'
        exact ((mem_dropColName _ _ _).mp hmem').2 rfl
      · intro r hr
        obtain ⟨r1, _, _, hkeyr, _, _, _⟩ := hmem r hr
        exact hkeyr
      · intro r hr
        obtain ⟨r1, _, _, _, hnor, _, _⟩ := hmem r hr
        exact hnor
      · intro r hr
        obtain ⟨r1, _, _, _, _, hkpr, _⟩ := hmem r hr
        exact hkpr
      · intro r hr
        obtain ⟨r1, _, _, _, _, _, hyrr⟩ := hmem r hr
        exact hyrr
    · have hg : normalize_year
          ((df.rows.map (fun r => setCol r cc (normalize_company_id (getVal r cc)))).map
            (fun r => getVal r y)) =
          (df.rows.map (fun r => setCol r cc (normalize_company_id (getVal r cc)))).map
            (fun r => strict_year (getVal r y)) := by
        rw [normalize_year_strict _ hP, List.map_map]
        simp only [Function.comp_def]
      have hmem := filter_some_members df cc y keep ty strict_year hcc hy hg
      have hFcols : (filter_for_companies_and_years df cc (some y) keep ty).cols =
          dropColName (if df.cols.contains cc then df.cols else df.cols ++ [cc]) "__year" := by
        rw [filter_some_eq df cc y keep ty strict_year hg]
      have hg2 : normalize_year
          ((filter_for_companies_and_years df cc (some y) keep ty).rows.map
            (fun r => getVal r y)) =
          (filter_for_companies_and_years df cc (some y) keep ty).rows.map
            (fun r => strict_year (getVal r y)) := by
        cases hRn : (filter_for_companies_and_years df cc (some y) keep ty).rows with
        | nil => simp [normalize_year]
        | cons r rest =>
          have hrF : r ∈ (filter_for_companies_and_years df cc (some y) keep ty).rows := by
            rw [hRn]
            exact List.mem_cons_self r rest
          obtain ⟨r1, _, _, _, _, _, hyrr⟩ := hmem r hrF
          obtain ⟨n, hn⟩ := yearInTy_true_int _ _ hyrr
          have hnotall : ¬ ((((r :: rest).map (fun r => getVal r y)).map strict_year).all
              (fun v => v == Val.null) = true) := by
            intro hall
            have hx := List.all_eq_true.mp hall (strict_year (getVal r y))
              (List.mem_map_of_mem _ (List.mem_map_of_mem _ (List.mem_cons_self r rest)))
            rw [hn] at hx
            simp at hx
          rw [normalize_year_strict _ hnotall, List.map_map]
          simp only [Function.comp_def]
      refine filter_some_fixpoint _ cc y keep ty strict_year ?_ ?_ ?_ ?_ hfix ?_ ?_ hg2
      · rw [hFcols, contains_eq_true_iff]
        apply (mem_dropColName _ _ _).mpr
        exact ⟨(contains_eq_true_iff _ _).mp (contains_if_self df.cols cc), hcc⟩
      · rw [hFcols]
        intro hmem'
        exact ((mem_dropColName _ _ _).mp hmem').2 rfl
      · intro r hr
        obtain ⟨r1, _, _, hkeyr, _, _, _⟩ := hmem r hr
        exact hkeyr
      · intro r hr
        obtain ⟨r1, _, _, _, hnor, _, _⟩ := hmem r hr
        exact hnor
      · intro r hr
        obtain ⟨r1, _, _, _, _, hkpr, _⟩ := hmem r hr
        exact hkpr
      · intro r hr
        obtain ⟨r1, _, _, _, _, _, hyrr⟩ := hmem r hr
        exact hyrr

/-- A two-row dated dataset whose retained row's company id is a
normalization fixed point. -/
def c3wdf : Table := ⟨["Stkcd", "Accper"],
  [[("Stkcd", Val.str "600000.0"), ("Accper", Val.str "2020-12-31")],
   [("Stkcd", Val.str "600001"), ("Accper", Val.str "2021-12-31")]]⟩

theorem filter_idempotent_witness :
    (∀ r ∈ (filter_for_companies_and_years c3wdf "Stkcd" (some "Accper")
        {"600000"} {2020}).rows,
      normalize_company_id (getVal r "Stkcd") = getVal r "Stkcd") ∧
    filter_for_companies_and_years
        (filter_for_companies_and_years c3wdf "Stkcd" (some "Accper")
          {"600000"} {2020})
        "Stkcd" (some "Accper") {"600000"} {2020} =
      filter_for_companies_and_years c3wdf "Stkcd" (some "Accper")
        {"600000"} {2020} := by
  refine ⟨by decide, ?_⟩
  exact filter_idempotent_of_normalized_fixed c3wdf "Stkcd" (some "Accper")
    {"600000"} {2020} (by decide)
    (by
      intro y hy
      cases hy
      decide)
    (by decide)

end Csmar
